import Mathlib

/-!
Shallow embedding of `src/deps/uv/src/timer.c` (libuv timer core).

Machine integers (`uint64_t`, C `int`) are modelled as `Nat` / `Int` with
explicit reduction modulo `2^64` at the points where the C code can wrap.
A handle's callback pointer is modelled as `Option Nat` (an opaque
identifier; `none` is `NULL`).  The timer heap of `heap-inl.h` is not part
of `src/`; its interface (`heap_insert`, `heap_remove`, `heap_min`) is
modelled from the spec as a set of nodes whose minimum is taken with the
injected comparator.
-/

namespace UvTimer

/-- `UINT64_MAX`, the saturation value used on deadline overflow. -/
def UINT64_MAX : Nat := 2 ^ 64 - 1

/-- `2^64`, the modulus of `uint64_t` arithmetic. -/
def U64 : Nat := 2 ^ 64

/-- `INT_MAX` of the platform `int`, the poll-timeout clamp in
`uv__next_timeout`. -/
def INT_MAX : Nat := 2147483647

/-- `UV_EINVAL` error code. -/
def UV_EINVAL : Int := -22

/-- A `uv_timer_t` handle: the fields of the C struct that the timer core
reads or writes, plus the `active`/`closing` flags maintained through the
handle-lifecycle macros (`uv__handle_start`, `uv__handle_stop`,
`uv__is_active`, `uv__is_closing`). -/
structure uv_timer_t where
  timer_cb : Option Nat
  timeout : Nat
  repeat_ : Nat
  start_id : Nat
  active : Bool
  closing : Bool
deriving Repr, DecidableEq

instance : Inhabited uv_timer_t :=
  ⟨{ timer_cb := none, timeout := 0, repeat_ := 0, start_id := 0,
     active := false, closing := false }⟩

/-- The loop state visible to the timer core: the cached clock
`loop->time`, the `start_id` allocator `loop->timer_counter`, the timer
heap (as the set of handle indices currently linked into it), and the
handles themselves, addressed by index into `handles`. -/
structure uv_loop_t where
  time : Nat
  timer_counter : Nat
  timer_heap : List Nat
  handles : List uv_timer_t
deriving Repr, DecidableEq

/-- Read the handle at index `i` (a handle pointer in C is always valid;
out-of-range indices return the default handle). -/
def uv_loop_t.handle (σ : uv_loop_t) (i : Nat) : uv_timer_t :=
  σ.handles.getD i default

/-- Write the handle at index `i`. -/
def uv_loop_t.setHandle (σ : uv_loop_t) (i : Nat) (h : uv_timer_t) : uv_loop_t :=
  { σ with handles := σ.handles.set i h }

/-- `timer_less_than`: compare `timeout`, break ties by `start_id`. -/
def timer_less_than (a b : uv_timer_t) : Bool :=
  if a.timeout < b.timeout then true
  else if b.timeout < a.timeout then false
  else decide (a.start_id < b.start_id)

/-- Modelled from the spec: `heap_insert` of `heap-inl.h` (not under
`src/`) links a node into the store.  The store is modelled as the set of
member indices, so insertion is prepending. -/
def heap_insert (σ : uv_loop_t) (i : Nat) : uv_loop_t :=
  { σ with timer_heap := i :: σ.timer_heap }

/-- Modelled from the spec: `heap_remove` of `heap-inl.h` (not under
`src/`) unlinks a node from the store. -/
def heap_remove (σ : uv_loop_t) (i : Nat) : uv_loop_t :=
  { σ with timer_heap := σ.timer_heap.erase i }

/-- Fold a list to its least element under the comparator `g`, or `none`
when the list is empty. -/
def minFold (g : Nat → Nat → Bool) (l : List Nat) : Option Nat :=
  l.foldr
    (fun i acc =>
      match acc with
      | none => some i
      | some j => if g i j then some i else some j)
    none

/-- Modelled from the spec: `heap_min` of `heap-inl.h` (not under `src/`)
returns the least member under the injected comparator, or `none` when
the store is empty. -/
def heap_min (σ : uv_loop_t) : Option Nat :=
  minFold (fun i j => timer_less_than (σ.handle i) (σ.handle j)) σ.timer_heap

/-- `uv_timer_init`: reset the handle to the inactive zeroed state
(`uv__handle_init` clears the flags; `timer_cb`, `timeout`, `repeat` are
zeroed; `start_id` is not touched). -/
def uv_timer_init (σ : uv_loop_t) (i : Nat) : uv_loop_t × Int :=
  (σ.setHandle i
    { timer_cb := none, timeout := 0, repeat_ := 0,
      start_id := (σ.handle i).start_id, active := false, closing := false }, 0)

/-- `uv_timer_stop`: no-op on an inactive handle; otherwise remove the
node from the heap and clear the active flag. -/
def uv_timer_stop (σ : uv_loop_t) (i : Nat) : uv_loop_t × Int :=
  if !(σ.handle i).active then (σ, 0)
  else
    let σ' := heap_remove σ i
    (σ'.setHandle i { σ'.handle i with active := false }, 0)

/-- `uv_timer_start`: validate, stop if active, compute the saturated
absolute deadline, record the fields, allocate `start_id` from
`timer_counter`, insert into the heap, set the active flag. -/
def uv_timer_start (σ : uv_loop_t) (i : Nat) (cb : Option Nat)
    (timeout repeat_ : Nat) : uv_loop_t × Int :=
  if (σ.handle i).closing || cb == none then (σ, UV_EINVAL)
  else
    let σ₁ := if (σ.handle i).active then (uv_timer_stop σ i).1 else σ
    let clamped_timeout₀ := (σ₁.time + timeout) % U64
    let clamped_timeout := if clamped_timeout₀ < timeout then UINT64_MAX else clamped_timeout₀
    let σ₂ := σ₁.setHandle i
      { timer_cb := cb, timeout := clamped_timeout, repeat_ := repeat_,
        start_id := σ₁.timer_counter, active := (σ₁.handle i).active,
        closing := (σ₁.handle i).closing }
    let σ₃ := { σ₂ with timer_counter := (σ₂.timer_counter + 1) % U64 }
    let σ₄ := heap_insert σ₃ i
    (σ₄.setHandle i { σ₄.handle i with active := true }, 0)

/-- `uv_timer_again`: `EINVAL` when no callback was ever assigned;
otherwise, when `repeat` is non-zero, stop then restart with
`delay = repeat`, `repeat = repeat`; the inner start's result is
discarded, as in the C code. -/
def uv_timer_again (σ : uv_loop_t) (i : Nat) : uv_loop_t × Int :=
  if (σ.handle i).timer_cb == none then (σ, UV_EINVAL)
  else if (σ.handle i).repeat_ ≠ 0 then
    let σ₁ := (uv_timer_stop σ i).1
    let h₁ := σ₁.handle i
    ((uv_timer_start σ₁ i h₁.timer_cb h₁.repeat_ h₁.repeat_).1, 0)
  else (σ, 0)

/-- `uv_timer_set_repeat`: plain field write. -/
def uv_timer_set_repeat (σ : uv_loop_t) (i : Nat) (repeat_ : Nat) : uv_loop_t :=
  σ.setHandle i { σ.handle i with repeat_ := repeat_ }

/-- `uv_timer_get_repeat`: plain field read. -/
def uv_timer_get_repeat (σ : uv_loop_t) (i : Nat) : Nat :=
  (σ.handle i).repeat_

/-- `uv_timer_get_due_in`: `0` when already due, else `timeout - now`. -/
def uv_timer_get_due_in (σ : uv_loop_t) (i : Nat) : Nat :=
  if σ.time ≥ (σ.handle i).timeout then 0
  else (σ.handle i).timeout - σ.time

/-- `uv__next_timeout`: `-1` on empty heap, `0` when the minimum is due,
otherwise the difference clamped to `INT_MAX`. -/
def uv__next_timeout (σ : uv_loop_t) : Int :=
  match heap_min σ with
  | none => -1
  | some i =>
    if (σ.handle i).timeout ≤ σ.time then 0
    else
      let diff := (σ.handle i).timeout - σ.time
      if diff > INT_MAX then (INT_MAX : Int) else (diff : Int)

/-- One iteration of the `uv__run_timers` loop: peek the minimum; break
(`none`) when the heap is empty or the minimum is not yet due; otherwise
stop the handle, re-arm it via `uv_timer_again`, and fire its callback
(the callback is modelled as a no-op whose invocation is recorded). -/
def run_timers_step (σ : uv_loop_t) : Option (uv_loop_t × Nat) :=
  match heap_min σ with
  | none => none
  | some i =>
    if (σ.handle i).timeout > σ.time then none
    else
      let σ₁ := (uv_timer_stop σ i).1
      let σ₂ := (uv_timer_again σ₁ i).1
      some (σ₂, i)

/-- `uv__run_timers`, fuelled: returns the final state, the list of fired
handles in order, and whether the loop reached its break condition within
the given fuel (`false` means the fuel ran out mid-loop). -/
def uv__run_timers : Nat → uv_loop_t → uv_loop_t × List Nat × Bool
  | 0, σ => (σ, [], false)
  | fuel + 1, σ =>
    match run_timers_step σ with
    | none => (σ, [], true)
    | some (σ', i) =>
      let r := uv__run_timers fuel σ'
      (r.1, i :: r.2.1, r.2.2)

/-- `uv__timer_close`: closing a timer stops it. -/
def uv__timer_close (σ : uv_loop_t) (i : Nat) : uv_loop_t :=
  (uv_timer_stop σ i).1

/-- The comparison key of a handle: the `(timeout, start_id)` pair that
`timer_less_than` orders lexicographically. -/
def keyOf (σ : uv_loop_t) (i : Nat) : Nat × Nat :=
  ((σ.handle i).timeout, (σ.handle i).start_id)

/-- Strict lexicographic order on `(timeout, start_id)` pairs. -/
def lexLt (p q : Nat × Nat) : Prop :=
  p.1 < q.1 ∨ (p.1 = q.1 ∧ p.2 < q.2)

instance (p q : Nat × Nat) : Decidable (lexLt p q) := by
  unfold lexLt; infer_instance

/-- Repeatedly take the store's minimum, removing each: the extraction
sequence of the Ordered Deadline Store. -/
def extract_mins : Nat → uv_loop_t → List Nat
  | 0, _ => []
  | fuel + 1, σ =>
    match heap_min σ with
    | none => []
    | some m => m :: extract_mins fuel (heap_remove σ m)

/-- The heap/active-flag invariant: the heap holds no duplicates, every
heap member is a valid handle index, and a handle is linked into the heap
iff its active flag is set. -/
def HeapInv (σ : uv_loop_t) : Prop :=
  σ.timer_heap.Nodup ∧
  (∀ i ∈ σ.timer_heap, i < σ.handles.length) ∧
  (∀ i < σ.handles.length, (i ∈ σ.timer_heap ↔ (σ.handle i).active = true))

instance (σ : uv_loop_t) : Decidable (HeapInv σ) := by
  unfold HeapInv; infer_instance

/-- Number of heap members currently due (`timeout ≤ loop->time`): the
termination measure of the `uv__run_timers` loop. -/
def dueCount (σ : uv_loop_t) : Nat :=
  (σ.timer_heap.filter (fun i => decide ((σ.handle i).timeout ≤ σ.time))).length

/-- The repeat-drift scenario of the spec: one handle, started at
`loop->time = 0` with `delay = 10, repeat = 10`. -/
def drift_state0 : uv_loop_t :=
  (uv_timer_start
    { time := 0, timer_counter := 0, timer_heap := [], handles := [default] }
    0 (some 7) 10 10).1

/-- The drift scenario after the loop jumps its cached time to 35. -/
def drift_state : uv_loop_t :=
  { drift_state0 with time := 35 }

/-- A state whose cached time sits at `UINT64_MAX` with one due repeating
handle: re-arming saturates the new deadline back to `UINT64_MAX`, which
is again due. -/
def overdue_state : uv_loop_t :=
  { time := UINT64_MAX, timer_counter := 0, timer_heap := [0],
    handles := [{ timer_cb := some 1, timeout := 5, repeat_ := 3, start_id := 0,
                  active := true, closing := false }] }

/-- A one-handle inactive state at time 1, exercising deadline
saturation. -/
def sat_state : uv_loop_t :=
  { time := 1, timer_counter := 0, timer_heap := [], handles := [default] }

/-- Two active handles sharing a timeout, with distinct start ids. -/
def two_state : uv_loop_t :=
  { time := 0, timer_counter := 2, timer_heap := [0, 1],
    handles :=
      [{ timer_cb := some 1, timeout := 7, repeat_ := 0, start_id := 0,
         active := true, closing := false },
       { timer_cb := some 2, timeout := 7, repeat_ := 0, start_id := 1,
         active := true, closing := false }] }

/-! ### Helper lemmas: the comparator -/

theorem timer_less_than_iff (a b : uv_timer_t) :
    timer_less_than a b = true ↔
      (a.timeout < b.timeout ∨ (a.timeout = b.timeout ∧ a.start_id < b.start_id)) := by
  unfold timer_less_than
  split
  · simp; omega
  · split <;> simp <;> omega

theorem timer_less_than_irrefl (a : uv_timer_t) : timer_less_than a a = false := by
  have := timer_less_than_iff a a
  cases h : timer_less_than a a
  · rfl
  · have := this.mp h
    omega

theorem timer_less_than_trans (a b c : uv_timer_t)
    (hab : timer_less_than a b = true) (hbc : timer_less_than b c = true) :
    timer_less_than a c = true := by
  rw [timer_less_than_iff] at hab hbc ⊢
  omega

theorem timer_less_than_total (a b : uv_timer_t)
    (h : (a.timeout, a.start_id) ≠ (b.timeout, b.start_id)) :
    timer_less_than a b = true ∨ timer_less_than b a = true := by
  rw [timer_less_than_iff, timer_less_than_iff]
  have h2 : a.timeout ≠ b.timeout ∨ a.start_id ≠ b.start_id := by
    by_contra hc
    push_neg at hc
    exact h (by rw [hc.1, hc.2])
  omega

theorem timer_less_than_asymm (a b : uv_timer_t)
    (h : timer_less_than a b = true) : timer_less_than b a = false := by
  cases hba : timer_less_than b a
  · rfl
  · rw [timer_less_than_iff] at h hba
    omega

/-! ### Helper lemmas: state frame conditions -/

theorem handle_setHandle_self (σ : uv_loop_t) (i : Nat) (h : uv_timer_t)
    (hi : i < σ.handles.length) : (σ.setHandle i h).handle i = h := by
  simp [uv_loop_t.setHandle, uv_loop_t.handle, List.getD_eq_getElem?_getD,
        List.getElem?_set_self, hi]

theorem handle_setHandle_ne (σ : uv_loop_t) (i j : Nat) (h : uv_timer_t)
    (hij : j ≠ i) : (σ.setHandle i h).handle j = σ.handle j := by
  simp [uv_loop_t.setHandle, uv_loop_t.handle, List.getD_eq_getElem?_getD,
        List.getElem?_set_ne (Ne.symm hij)]

theorem handle_default_of_ge (σ : uv_loop_t) (i : Nat)
    (hi : σ.handles.length ≤ i) : σ.handle i = default := by
  simp [uv_loop_t.handle, List.getD_eq_getElem?_getD, List.getElem?_eq_none hi]

theorem active_lt_length (σ : uv_loop_t) (i : Nat)
    (h : (σ.handle i).active = true) : i < σ.handles.length := by
  by_contra hge
  rw [handle_default_of_ge σ i (by omega)] at h
  simp [default] at h

theorem stop_time (σ : uv_loop_t) (i : Nat) :
    (uv_timer_stop σ i).1.time = σ.time := by
  unfold uv_timer_stop
  split <;> rfl

theorem stop_counter (σ : uv_loop_t) (i : Nat) :
    (uv_timer_stop σ i).1.timer_counter = σ.timer_counter := by
  unfold uv_timer_stop
  split <;> rfl

theorem stop_length (σ : uv_loop_t) (i : Nat) :
    (uv_timer_stop σ i).1.handles.length = σ.handles.length := by
  unfold uv_timer_stop
  split
  · rfl
  · simp [uv_loop_t.setHandle, heap_remove]

theorem stop_handle_ne (σ : uv_loop_t) (i j : Nat) (hij : j ≠ i) :
    (uv_timer_stop σ i).1.handle j = σ.handle j := by
  unfold uv_timer_stop
  split
  · rfl
  · exact handle_setHandle_ne _ i j _ hij

theorem stop_ret (σ : uv_loop_t) (i : Nat) : (uv_timer_stop σ i).2 = 0 := by
  unfold uv_timer_stop
  split <;> rfl


theorem stop_inactive (σ : uv_loop_t) (i : Nat)
    (h : (σ.handle i).active = false) : uv_timer_stop σ i = (σ, 0) := by
  unfold uv_timer_stop
  simp [h]

theorem stop_active (σ : uv_loop_t) (i : Nat)
    (ha : (σ.handle i).active = true) :
    (uv_timer_stop σ i).1 =
      (heap_remove σ i).setHandle i { σ.handle i with active := false } := by
  unfold uv_timer_stop
  simp only [ha, Bool.not_true, Bool.false_eq_true, if_false]
  rfl

theorem some_beq_none (c : Nat) : ((some c : Option Nat) == none) = false := rfl

theorem handle_eq_getElem (σ : uv_loop_t) (i : Nat) (hi : i < σ.handles.length) :
    σ.handle i = σ.handles[i] := by
  simp [uv_loop_t.handle, List.getD_eq_getElem?_getD, List.getElem?_eq_getElem hi]

theorem start_success (σ : uv_loop_t) (i : Nat) (cb : Option Nat) (t r : Nat)
    (hcb : cb ≠ none) (hcl : (σ.handle i).closing = false)
    (hi : i < σ.handles.length) :
    (uv_timer_start σ i cb t r).1.handle i =
      { timer_cb := cb,
        timeout := if (σ.time + t) % U64 < t then UINT64_MAX else (σ.time + t) % U64,
        repeat_ := r, start_id := σ.timer_counter, active := true,
        closing := false } ∧
    (uv_timer_start σ i cb t r).1.timer_heap =
      i :: (if (σ.handle i).active then σ.timer_heap.erase i else σ.timer_heap) ∧
    (uv_timer_start σ i cb t r).1.timer_counter = (σ.timer_counter + 1) % U64 ∧
    (uv_timer_start σ i cb t r).1.time = σ.time ∧
    (uv_timer_start σ i cb t r).2 = 0 ∧
    (uv_timer_start σ i cb t r).1.handles.length = σ.handles.length ∧
    (∀ j, j ≠ i → (uv_timer_start σ i cb t r).1.handle j = σ.handle j) := by
  obtain ⟨c, rfl⟩ := Option.ne_none_iff_exists'.mp hcb
  unfold uv_timer_start
  rw [hcl, some_beq_none]
  simp only [Bool.or_self, Bool.false_eq_true, if_false]
  by_cases ha : (σ.handle i).active
  · have ha2 : σ.handles[i].active = true := by rw [← handle_eq_getElem σ i hi]; exact ha
    have hcl2 : σ.handles[i].closing = false := by rw [← handle_eq_getElem σ i hi]; exact hcl
    rw [stop_active σ i ha]
    refine ⟨?_, ?_, ?_, ?_, ?_, ?_, ?_⟩ <;>
      simp [uv_loop_t.setHandle, uv_loop_t.handle, heap_insert, heap_remove, ha, ha2, hcl2,
            List.getD_eq_getElem?_getD, List.getElem?_set_self, hi]
    intro j hji
    simp [List.getElem?_set_ne (Ne.symm hji)]
  · have ha2 : σ.handles[i].active = false := by
      rw [← handle_eq_getElem σ i hi]
      exact Bool.not_eq_true _ ▸ ha
    have hcl2 : σ.handles[i].closing = false := by rw [← handle_eq_getElem σ i hi]; exact hcl
    simp only [ha, Bool.false_eq_true, if_false]
    refine ⟨?_, ?_, ?_, ?_, ?_, ?_, ?_⟩ <;>
      simp [uv_loop_t.setHandle, uv_loop_t.handle, heap_insert, heap_remove, ha, ha2, hcl2,
            List.getD_eq_getElem?_getD, List.getElem?_set_self, hi]
    intro j hji
    simp [List.getElem?_set_ne (Ne.symm hji)]

/-! ### Helper lemmas: the store minimum -/

theorem minFold_nil (g : Nat → Nat → Bool) : minFold g [] = none := rfl

theorem minFold_cons (g : Nat → Nat → Bool) (x : Nat) (xs : List Nat) :
    minFold g (x :: xs) =
      match minFold g xs with
      | none => some x
      | some j => if g x j then some x else some j := rfl

theorem minFold_eq_none_iff (g : Nat → Nat → Bool) (l : List Nat) :
    minFold g l = none ↔ l = [] := by
  cases l with
  | nil => simp [minFold_nil]
  | cons x xs =>
    rw [minFold_cons]
    generalize minFold g xs = o
    cases o with
    | none => simp
    | some c => split <;> (try split) <;> simp_all

theorem minFold_mem (g : Nat → Nat → Bool) :
    ∀ (l : List Nat) (m : Nat), minFold g l = some m → m ∈ l := by
  intro l
  induction l with
  | nil => intro m h; simp [minFold_nil] at h
  | cons x xs ih =>
    intro m h
    rw [minFold_cons] at h
    generalize hxs : minFold g xs = o at h
    cases o with
    | none =>
      simp only [Option.some.injEq] at h
      simp [h]
    | some c =>
      simp only at h
      split at h <;> simp only [Option.some.injEq] at h
      · simp [h]
      · exact h ▸ List.mem_cons_of_mem x (ih c hxs)

theorem minFold_least (g : Nat → Nat → Bool)
    (hirr : ∀ a, g a a = false)
    (htr : ∀ a b c, g a b = true → g b c = true → g a c = true) :
    ∀ (l : List Nat) (m : Nat), minFold g l = some m → ∀ j ∈ l, g j m = false := by
  intro l
  induction l with
  | nil => intro m h; simp [minFold_nil] at h
  | cons x xs ih =>
    intro m h j hj
    rw [minFold_cons] at h
    generalize hxs : minFold g xs = o at h
    cases o with
    | none =>
      simp only [Option.some.injEq] at h
      subst h
      have hnil : xs = [] := (minFold_eq_none_iff g xs).mp hxs
      subst hnil
      simp at hj
      subst hj
      exact hirr j
    | some c =>
      simp only at h
      by_cases hgxc : g x c = true
      · rw [if_pos hgxc] at h
        simp only [Option.some.injEq] at h
        subst h
        rcases List.mem_cons.mp hj with hjx | hj2
        · subst hjx
          exact hirr j
        · cases hv : g j x with
          | false => rfl
          | true =>
            have h1 : g j c = true := htr j x c hv hgxc
            rw [ih c hxs j hj2] at h1
            exact absurd h1 (by simp)
      · rw [if_neg hgxc] at h
        simp only [Option.some.injEq] at h
        subst h
        rcases List.mem_cons.mp hj with hjx | hj2
        · subst hjx
          cases hv : g j c with
          | false => rfl
          | true => exact absurd hv hgxc
        · exact ih c hxs j hj2

theorem heap_min_mem (σ : uv_loop_t) (m : Nat) (h : heap_min σ = some m) :
    m ∈ σ.timer_heap :=
  minFold_mem _ _ m h

theorem heap_min_eq_none_iff (σ : uv_loop_t) :
    heap_min σ = none ↔ σ.timer_heap = [] :=
  minFold_eq_none_iff _ _

theorem heap_min_least (σ : uv_loop_t) (m : Nat) (h : heap_min σ = some m) :
    ∀ j ∈ σ.timer_heap, timer_less_than (σ.handle j) (σ.handle m) = false :=
  minFold_least _ (fun a => timer_less_than_irrefl (σ.handle a))
    (fun a b c => timer_less_than_trans (σ.handle a) (σ.handle b) (σ.handle c))
    σ.timer_heap m h

/-! ### Helper lemmas: repeated extraction of the minimum -/

theorem extract_mins_subset : ∀ (fuel : Nat) (σ : uv_loop_t) (x : Nat),
    x ∈ extract_mins fuel σ → x ∈ σ.timer_heap := by
  intro fuel
  induction fuel with
  | zero => intro σ x hx; simp [extract_mins] at hx
  | succ n ih =>
    intro σ x hx
    unfold extract_mins at hx
    cases hm : heap_min σ with
    | none => simp only [hm] at hx; simp at hx
    | some m =>
      simp only [hm] at hx
      rcases List.mem_cons.mp hx with rfl | hx2
      · exact heap_min_mem σ x hm
      · exact List.mem_of_mem_erase (ih (heap_remove σ m) x hx2)

theorem extract_mins_sorted : ∀ (fuel : Nat) (σ : uv_loop_t),
    List.Pairwise (fun i j => (σ.handle i).start_id ≠ (σ.handle j).start_id)
      σ.timer_heap →
    List.Pairwise (fun i j => lexLt (keyOf σ i) (keyOf σ j)) (extract_mins fuel σ) := by
  intro fuel
  induction fuel with
  | zero => intro σ _; simp [extract_mins]
  | succ n ih =>
    intro σ hdist
    unfold extract_mins
    cases hm : heap_min σ with
    | none => simp only [hm]; exact List.Pairwise.nil
    | some m =>
      simp only [hm]
      constructor
      · intro y hy
        have hy2 : y ∈ σ.timer_heap.erase m := extract_mins_subset n (heap_remove σ m) y hy
        have hnd : σ.timer_heap.Nodup :=
          hdist.imp (fun hne he => hne (congrArg (fun k => (σ.handle k).start_id) he))
        have hym : y ≠ m ∧ y ∈ σ.timer_heap := (hnd.mem_erase_iff).mp hy2
        have hm2 : m ∈ σ.timer_heap := heap_min_mem σ m hm
        have hsid : (σ.handle y).start_id ≠ (σ.handle m).start_id :=
          hdist.forall (fun a b h => Ne.symm h) hym.2 hm2 hym.1
        have hkne : ((σ.handle m).timeout, (σ.handle m).start_id) ≠
            ((σ.handle y).timeout, (σ.handle y).start_id) :=
          fun he => hsid ((congrArg Prod.snd he).symm)
        have hleast := heap_min_least σ m hm y hym.2
        rcases timer_less_than_total (σ.handle m) (σ.handle y) hkne with hlt | hlt
        · exact (timer_less_than_iff _ _).mp hlt
        · rw [hleast] at hlt
          exact absurd hlt (by simp)
      · exact ih (heap_remove σ m) (hdist.sublist (List.erase_sublist m σ.timer_heap))

/-! ### Helper lemmas: start, again, and the per-iteration step -/

theorem cb_lt_length (σ : uv_loop_t) (i : Nat)
    (h : (σ.handle i).timer_cb ≠ none) : i < σ.handles.length := by
  by_contra hge
  rw [handle_default_of_ge σ i (by omega)] at h
  simp [default] at h

theorem handle_eta_active (h : uv_timer_t) (ha : h.active = false) :
    { h with active := false } = h := by
  cases h
  simp_all

theorem stop_handle_self (σ : uv_loop_t) (i : Nat) :
    (uv_timer_stop σ i).1.handle i = { σ.handle i with active := false } := by
  by_cases ha : (σ.handle i).active
  · rw [stop_active σ i ha]
    exact handle_setHandle_self _ i _ (active_lt_length σ i ha)
  · rw [stop_inactive σ i (Bool.not_eq_true _ ▸ ha)]
    exact (handle_eta_active _ (Bool.not_eq_true _ ▸ ha)).symm

theorem start_fail (σ : uv_loop_t) (i : Nat) (cb : Option Nat) (t r : Nat)
    (h : (σ.handle i).closing = true ∨ cb = none) :
    uv_timer_start σ i cb t r = (σ, UV_EINVAL) := by
  unfold uv_timer_start
  rcases h with h | h
  · rw [h]
    simp
  · subst h
    simp

theorem start_time (σ : uv_loop_t) (i : Nat) (cb : Option Nat) (t r : Nat) :
    (uv_timer_start σ i cb t r).1.time = σ.time := by
  unfold uv_timer_start
  split
  · rfl
  · by_cases hc : (σ.handle i).active <;> simp [hc, stop_time, uv_loop_t.setHandle, heap_insert]

theorem start_length (σ : uv_loop_t) (i : Nat) (cb : Option Nat) (t r : Nat) :
    (uv_timer_start σ i cb t r).1.handles.length = σ.handles.length := by
  unfold uv_timer_start
  split
  · rfl
  · by_cases hc : (σ.handle i).active <;>
      simp [hc, stop_length, uv_loop_t.setHandle, heap_insert]

theorem chain_handle_ne (τ : uv_loop_t) (i j : Nat) (h₂ h₃ : uv_timer_t) (c : Nat)
    (hij : j ≠ i) :
    ((heap_insert { τ.setHandle i h₂ with timer_counter := c } i).setHandle i h₃).handle j =
      τ.handle j := by
  simp [uv_loop_t.setHandle, heap_insert, uv_loop_t.handle, List.getD_eq_getElem?_getD,
        List.getElem?_set_ne (Ne.symm hij)]

theorem start_handle_ne (σ : uv_loop_t) (i : Nat) (cb : Option Nat) (t r j : Nat)
    (hij : j ≠ i) : (uv_timer_start σ i cb t r).1.handle j = σ.handle j := by
  unfold uv_timer_start
  split
  · rfl
  · by_cases hc : (σ.handle i).active
    · rw [if_pos hc]
      exact (chain_handle_ne _ i j _ _ _ hij).trans (stop_handle_ne σ i j hij)
    · rw [if_neg hc]
      exact chain_handle_ne _ i j _ _ _ hij

theorem again_noop_cb (σ : uv_loop_t) (i : Nat)
    (h : (σ.handle i).timer_cb = none) : uv_timer_again σ i = (σ, UV_EINVAL) := by
  unfold uv_timer_again
  simp [h]

theorem again_noop_repeat (σ : uv_loop_t) (i : Nat)
    (hcb : (σ.handle i).timer_cb ≠ none) (hr : (σ.handle i).repeat_ = 0) :
    uv_timer_again σ i = (σ, 0) := by
  obtain ⟨c, hc⟩ := Option.ne_none_iff_exists'.mp hcb
  unfold uv_timer_again
  simp [hc, hr]

theorem again_rearm (σ : uv_loop_t) (i : Nat)
    (hcb : (σ.handle i).timer_cb ≠ none) (hr : (σ.handle i).repeat_ ≠ 0) :
    uv_timer_again σ i =
      ((uv_timer_start (uv_timer_stop σ i).1 i (σ.handle i).timer_cb
          (σ.handle i).repeat_ (σ.handle i).repeat_).1, 0) := by
  obtain ⟨c, hc⟩ := Option.ne_none_iff_exists'.mp hcb
  unfold uv_timer_again
  simp [hc, hr, stop_handle_self]

theorem again_time (σ : uv_loop_t) (i : Nat) :
    (uv_timer_again σ i).1.time = σ.time := by
  by_cases hcb : (σ.handle i).timer_cb = none
  · rw [again_noop_cb σ i hcb]
  · by_cases hr : (σ.handle i).repeat_ = 0
    · rw [again_noop_repeat σ i hcb hr]
    · rw [again_rearm σ i hcb hr]
      exact (start_time _ _ _ _ _).trans (stop_time σ i)

theorem again_length (σ : uv_loop_t) (i : Nat) :
    (uv_timer_again σ i).1.handles.length = σ.handles.length := by
  by_cases hcb : (σ.handle i).timer_cb = none
  · rw [again_noop_cb σ i hcb]
  · by_cases hr : (σ.handle i).repeat_ = 0
    · rw [again_noop_repeat σ i hcb hr]
    · rw [again_rearm σ i hcb hr]
      exact (start_length _ _ _ _ _).trans (stop_length σ i)

theorem again_handle_ne (σ : uv_loop_t) (i j : Nat) (hij : j ≠ i) :
    (uv_timer_again σ i).1.handle j = σ.handle j := by
  by_cases hcb : (σ.handle i).timer_cb = none
  · rw [again_noop_cb σ i hcb]
  · by_cases hr : (σ.handle i).repeat_ = 0
    · rw [again_noop_repeat σ i hcb hr]
    · rw [again_rearm σ i hcb hr]
      exact (start_handle_ne _ i _ _ _ j hij).trans (stop_handle_ne σ i j hij)

/-! ### Helper lemmas: the heap/active invariant -/

theorem HeapInv_stop (σ : uv_loop_t) (i : Nat) (hInv : HeapInv σ) :
    HeapInv (uv_timer_stop σ i).1 := by
  by_cases ha : (σ.handle i).active
  · have hlen : i < σ.handles.length := active_lt_length σ i ha
    have hmem : i ∈ σ.timer_heap := (hInv.2.2 i hlen).mpr ha
    rw [stop_active σ i ha]
    obtain ⟨hnd, hbound, hiff⟩ := hInv
    refine ⟨hnd.erase i, ?_, ?_⟩
    · intro j hj
      have hj2 : j ∈ σ.timer_heap.erase i := hj
      have hb := hbound j (List.mem_of_mem_erase hj2)
      simpa [uv_loop_t.setHandle, heap_remove] using hb
    · intro j hjlen
      have hjlen2 : j < σ.handles.length := by
        simpa [uv_loop_t.setHandle, heap_remove] using hjlen
      by_cases hji : j = i
      · subst hji
        rw [handle_setHandle_self (heap_remove σ j) j _ hjlen2]
        have hnm : j ∉ ((heap_remove σ j).setHandle j
            { σ.handle j with active := false }).timer_heap := by
          show j ∉ σ.timer_heap.erase j
          exact hnd.not_mem_erase
        simp [hnm]
      · rw [handle_setHandle_ne (heap_remove σ i) i j _ hji]
        have hmr : j ∈ ((heap_remove σ i).setHandle i
            { σ.handle i with active := false }).timer_heap ↔
            j ∈ σ.timer_heap := by
          show j ∈ σ.timer_heap.erase i ↔ j ∈ σ.timer_heap
          rw [hnd.mem_erase_iff]
          simp [hji]
        rw [hmr]
        show j ∈ σ.timer_heap ↔ (σ.handle j).active = true
        exact hiff j hjlen2
  · rw [stop_inactive σ i (Bool.not_eq_true _ ▸ ha)]
    exact hInv

theorem HeapInv_start (σ : uv_loop_t) (i : Nat) (cb : Option Nat) (t r : Nat)
    (hInv : HeapInv σ) (hi : i < σ.handles.length) :
    HeapInv (uv_timer_start σ i cb t r).1 := by
  by_cases hfail : (σ.handle i).closing = true ∨ cb = none
  · rw [start_fail σ i cb t r hfail]
    exact hInv
  · push_neg at hfail
    have hclf : (σ.handle i).closing = false := Bool.not_eq_true _ ▸ hfail.1
    obtain ⟨hH, hheap, hcnt, htime, hret, hlen, hframe⟩ :=
      start_success σ i cb t r hfail.2 hclf hi
    refine ⟨?_, ?_, ?_⟩
    · rw [hheap]
      by_cases ha : (σ.handle i).active
      · rw [if_pos ha]
        exact List.nodup_cons.mpr ⟨hInv.1.not_mem_erase, hInv.1.erase i⟩
      · rw [if_neg ha]
        refine List.nodup_cons.mpr ⟨?_, hInv.1⟩
        intro hmem
        exact ha ((hInv.2.2 i hi).mp hmem)
    · intro j hj
      rw [hheap] at hj
      rw [hlen]
      rcases List.mem_cons.mp hj with rfl | hj2
      · exact hi
      · refine hInv.2.1 j ?_
        by_cases ha : (σ.handle i).active
        · rw [if_pos ha] at hj2
          exact List.mem_of_mem_erase hj2
        · rw [if_neg ha] at hj2
          exact hj2
    · intro j hjlen
      rw [hlen] at hjlen
      rw [hheap]
      by_cases hji : j = i
      · subst hji
        simp [hH]
      · rw [hframe j hji]
        have hmemiff : (j ∈ i :: (if (σ.handle i).active then σ.timer_heap.erase i
            else σ.timer_heap)) ↔ j ∈ σ.timer_heap := by
          rw [List.mem_cons]
          by_cases ha : (σ.handle i).active
          · rw [if_pos ha, hInv.1.mem_erase_iff]
            simp [hji]
          · rw [if_neg ha]
            simp [hji]
        rw [hmemiff]
        exact hInv.2.2 j hjlen

theorem HeapInv_again (σ : uv_loop_t) (i : Nat) (hInv : HeapInv σ) :
    HeapInv (uv_timer_again σ i).1 := by
  by_cases hcb : (σ.handle i).timer_cb = none
  · rw [again_noop_cb σ i hcb]
    exact hInv
  · by_cases hr : (σ.handle i).repeat_ = 0
    · rw [again_noop_repeat σ i hcb hr]
      exact hInv
    · rw [again_rearm σ i hcb hr]
      have hi : i < σ.handles.length := cb_lt_length σ i hcb
      have hi2 : i < (uv_timer_stop σ i).1.handles.length := by
        rw [stop_length]
        exact hi
      exact HeapInv_start _ i _ _ _ (HeapInv_stop σ i hInv) hi2

theorem HeapInv_init (σ : uv_loop_t) (i : Nat) (hInv : HeapInv σ)
    (hi : i < σ.handles.length) (hni : i ∉ σ.timer_heap) :
    HeapInv (uv_timer_init σ i).1 := by
  refine ⟨hInv.1, ?_, ?_⟩
  · intro j hj
    have := hInv.2.1 j hj
    simpa [uv_timer_init, uv_loop_t.setHandle] using this
  · intro j hjlen
    have hjlen2 : j < σ.handles.length := by
      simpa [uv_timer_init, uv_loop_t.setHandle] using hjlen
    by_cases hji : j = i
    · subst hji
      rw [show (uv_timer_init σ j).1.handle j =
          { timer_cb := none, timeout := 0, repeat_ := 0,
            start_id := (σ.handle j).start_id, active := false, closing := false } from
          handle_setHandle_self σ j _ hjlen2]
      have hnm : j ∉ (uv_timer_init σ j).1.timer_heap := hni
      simp [hnm]
    · rw [show (uv_timer_init σ i).1.handle j = σ.handle j from
          handle_setHandle_ne σ i j _ hji]
      exact hInv.2.2 j hjlen2

theorem step_some_inv (σ σ' : uv_loop_t) (i : Nat)
    (h : run_timers_step σ = some (σ', i)) :
    heap_min σ = some i ∧ (σ.handle i).timeout ≤ σ.time ∧
    σ' = (uv_timer_again (uv_timer_stop σ i).1 i).1 := by
  unfold run_timers_step at h
  cases hm : heap_min σ with
  | none => simp [hm] at h
  | some m =>
    simp only [hm] at h
    by_cases hd : (σ.handle m).timeout > σ.time
    · rw [if_pos hd] at h
      simp at h
    · rw [if_neg hd] at h
      simp only [Option.some.injEq, Prod.mk.injEq] at h
      obtain ⟨h1, h2⟩ := h
      subst h2
      exact ⟨rfl, by omega, h1.symm⟩

theorem step_none_iff (σ : uv_loop_t) :
    run_timers_step σ = none ↔
      (heap_min σ = none ∨
        ∃ i, heap_min σ = some i ∧ σ.time < (σ.handle i).timeout) := by
  unfold run_timers_step
  cases hm : heap_min σ with
  | none => simp [hm]
  | some m =>
    simp only [hm]
    by_cases hd : (σ.handle m).timeout > σ.time
    · rw [if_pos hd]
      simp only [true_iff]
      exact Or.inr ⟨m, rfl, hd⟩
    · rw [if_neg hd]
      constructor
      · intro h
        exact absurd h (by simp)
      · rintro (h | ⟨i, hi, hlt⟩)
        · exact absurd h (by simp)
        · simp only [Option.some.injEq] at hi
          subst hi
          omega

theorem HeapInv_step (σ σ' : uv_loop_t) (i : Nat) (hInv : HeapInv σ)
    (h : run_timers_step σ = some (σ', i)) : HeapInv σ' := by
  obtain ⟨-, -, h3⟩ := step_some_inv σ σ' i h
  rw [h3]
  exact HeapInv_again _ i (HeapInv_stop σ i hInv)

theorem HeapInv_run (fuel : Nat) : ∀ (σ : uv_loop_t), HeapInv σ →
    HeapInv (uv__run_timers fuel σ).1 := by
  induction fuel with
  | zero => intro σ hInv; exact hInv
  | succ n ih =>
    intro σ hInv
    unfold uv__run_timers
    cases hs : run_timers_step σ with
    | none => simp only [hs]; exact hInv
    | some p =>
      simp only [hs]
      exact ih p.1 (HeapInv_step σ p.1 p.2 hInv (by rw [hs]))

/-! ### Helper lemmas: the run loop -/

theorem run_timers_zero (σ : uv_loop_t) : uv__run_timers 0 σ = (σ, [], false) := rfl

theorem run_timers_succ_none (fuel : Nat) (σ : uv_loop_t)
    (h : run_timers_step σ = none) : uv__run_timers (fuel + 1) σ = (σ, [], true) := by
  simp only [uv__run_timers, h]

theorem run_timers_succ_some (fuel : Nat) (σ σ' : uv_loop_t) (i : Nat)
    (h : run_timers_step σ = some (σ', i)) :
    uv__run_timers (fuel + 1) σ =
      ((uv__run_timers fuel σ').1, i :: (uv__run_timers fuel σ').2.1,
        (uv__run_timers fuel σ').2.2) := by
  simp only [uv__run_timers, h]

theorem step_time (σ σ' : uv_loop_t) (i : Nat)
    (h : run_timers_step σ = some (σ', i)) : σ'.time = σ.time := by
  obtain ⟨-, -, h3⟩ := step_some_inv σ σ' i h
  rw [h3]
  exact (again_time _ i).trans (stop_time σ i)

theorem step_handle_ne (σ σ' : uv_loop_t) (i j : Nat) (hij : j ≠ i)
    (h : run_timers_step σ = some (σ', i)) : σ'.handle j = σ.handle j := by
  obtain ⟨-, -, h3⟩ := step_some_inv σ σ' i h
  rw [h3]
  exact (again_handle_ne _ i j hij).trans (stop_handle_ne σ i j hij)

theorem run_timers_time (fuel : Nat) : ∀ σ : uv_loop_t,
    (uv__run_timers fuel σ).1.time = σ.time := by
  induction fuel with
  | zero => intro σ; rfl
  | succ n ih =>
    intro σ
    cases hs : run_timers_step σ with
    | none => rw [run_timers_succ_none n σ hs]
    | some p =>
      rw [run_timers_succ_some n σ p.1 p.2 (by rw [hs])]
      exact (ih p.1).trans (step_time σ p.1 p.2 (by rw [hs]))

theorem filter_length_erase_lt (l : List Nat) (p : Nat → Bool) (i : Nat)
    (hmem : i ∈ l) (hpi : p i = true) :
    ((l.erase i).filter p).length < (l.filter p).length := by
  have hperm : List.Perm l (i :: l.erase i) := List.perm_cons_erase hmem
  have hlen := (hperm.filter p).length_eq
  rw [List.filter_cons, if_pos hpi] at hlen
  simp at hlen
  omega

/-- One firing iteration: the fired minimum leaves the heap, and when it
is re-armed its new deadline is strictly later than the (unchanged)
cached time; the number of due heap members strictly decreases. -/
theorem step_state (σ σ' : uv_loop_t) (i : Nat) (hInv : HeapInv σ)
    (htime : σ.time < UINT64_MAX) (h : run_timers_step σ = some (σ', i)) :
    (σ'.timer_heap = σ.timer_heap.erase i ∨
      (σ'.timer_heap = i :: σ.timer_heap.erase i ∧ σ'.time < (σ'.handle i).timeout)) ∧
    dueCount σ' < dueCount σ := by
  obtain ⟨hm, hdue, h3⟩ := step_some_inv σ σ' i h
  have hmem : i ∈ σ.timer_heap := heap_min_mem σ i hm
  have hi : i < σ.handles.length := hInv.2.1 i hmem
  have ha : (σ.handle i).active = true := (hInv.2.2 i hi).mp hmem
  have hnd : σ.timer_heap.Nodup := hInv.1
  have hsheap : (uv_timer_stop σ i).1.timer_heap = σ.timer_heap.erase i := by
    rw [stop_active σ i ha]
    rfl
  have hshandle : (uv_timer_stop σ i).1.handle i = { σ.handle i with active := false } :=
    stop_handle_self σ i
  have hstime : (uv_timer_stop σ i).1.time = σ.time := stop_time σ i
  have hchar : σ'.timer_heap = σ.timer_heap.erase i ∨
      (σ'.timer_heap = i :: σ.timer_heap.erase i ∧ σ'.time < (σ'.handle i).timeout) := by
    by_cases hcb : ((uv_timer_stop σ i).1.handle i).timer_cb = none
    · left
      rw [h3, again_noop_cb _ i hcb]
      exact hsheap
    · by_cases hr : ((uv_timer_stop σ i).1.handle i).repeat_ = 0
      · left
        rw [h3, again_noop_repeat _ i hcb hr]
        exact hsheap
      · have hact : ((uv_timer_stop σ i).1.handle i).active = false := by
          rw [hshandle]
        have hσp : σ' = (uv_timer_start (uv_timer_stop σ i).1 i
            ((uv_timer_stop σ i).1.handle i).timer_cb
            ((uv_timer_stop σ i).1.handle i).repeat_
            ((uv_timer_stop σ i).1.handle i).repeat_).1 := by
          rw [h3, again_rearm _ i hcb hr, stop_inactive _ i hact]
        by_cases hcl : ((uv_timer_stop σ i).1.handle i).closing = true
        · left
          rw [hσp, start_fail _ i _ _ _ (Or.inl hcl)]
          exact hsheap
        · have hclf : ((uv_timer_stop σ i).1.handle i).closing = false :=
            Bool.not_eq_true _ ▸ hcl
          have hia : i < (uv_timer_stop σ i).1.handles.length := by
            rw [stop_length]
            exact hi
          obtain ⟨hH, hheap, -, -, -, -, -⟩ :=
            start_success (uv_timer_stop σ i).1 i _ _ _ hcb hclf hia
          right
          constructor
          · rw [hσp, hheap, hact]
            simp only [Bool.false_eq_true, if_false]
            rw [hsheap]
          · rw [hσp, hH]
            show (uv_timer_start (uv_timer_stop σ i).1 i
                ((uv_timer_stop σ i).1.handle i).timer_cb
                ((uv_timer_stop σ i).1.handle i).repeat_
                ((uv_timer_stop σ i).1.handle i).repeat_).1.time <
              (if ((uv_timer_stop σ i).1.time + ((uv_timer_stop σ i).1.handle i).repeat_) % U64 <
                  ((uv_timer_stop σ i).1.handle i).repeat_
                then UINT64_MAX
                else ((uv_timer_stop σ i).1.time + ((uv_timer_stop σ i).1.handle i).repeat_) % U64)
            rw [start_time, stop_time]
            have hU : U64 = 18446744073709551616 := by norm_num [U64]
            have hM : UINT64_MAX = 18446744073709551615 := by norm_num [UINT64_MAX]
            have htime2 := htime
            rw [hM] at htime2
            have hrpos : 0 < ((uv_timer_stop σ i).1.handle i).repeat_ := Nat.pos_of_ne_zero hr
            rw [hU, hM]
            split
            · omega
            · rename_i hnc
              omega
  have hframe : ∀ j, j ≠ i → σ'.handle j = σ.handle j :=
    fun j hj => step_handle_ne σ σ' i j hj h
  have htimeq : σ'.time = σ.time := step_time σ σ' i h
  refine ⟨hchar, ?_⟩
  have hcongr : ∀ l : List Nat, (∀ j ∈ l, j ≠ i) →
      l.filter (fun j => decide ((σ'.handle j).timeout ≤ σ'.time)) =
      l.filter (fun j => decide ((σ.handle j).timeout ≤ σ.time)) := by
    intro l hl
    apply List.filter_congr
    intro j hj
    rw [hframe j (hl j hj), htimeq]
  have herasene : ∀ j ∈ σ.timer_heap.erase i, j ≠ i :=
    fun j hj => ((hnd.mem_erase_iff).mp hj).1
  have hlt := filter_length_erase_lt σ.timer_heap
    (fun j => decide ((σ.handle j).timeout ≤ σ.time)) i hmem (by simp [hdue])
  rcases hchar with hc | ⟨hc, hnotdue⟩
  · unfold dueCount
    rw [hc, hcongr _ herasene]
    exact hlt
  · unfold dueCount
    rw [hc, List.filter_cons]
    have hpi : (decide ((σ'.handle i).timeout ≤ σ'.time)) = false := by
      simp only [decide_eq_false_iff_not]
      omega
    simp only [hpi, Bool.false_eq_true, if_false]
    rw [hcongr _ herasene]
    exact hlt

theorem step_not_mem (σ σ' : uv_loop_t) (i j : Nat) (hInv : HeapInv σ)
    (htime : σ.time < UINT64_MAX) (h : run_timers_step σ = some (σ', i))
    (hj : j ∉ σ.timer_heap) (hji : j ≠ i) : j ∉ σ'.timer_heap := by
  obtain ⟨hchar, -⟩ := step_state σ σ' i hInv htime h
  rcases hchar with hc | ⟨hc, -⟩
  · rw [hc]
    intro hmem
    exact hj (List.mem_of_mem_erase hmem)
  · rw [hc]
    intro hmem
    rcases List.mem_cons.mp hmem with he | hmem2
    · exact hji he
    · exact hj (List.mem_of_mem_erase hmem2)

theorem run_not_fired_out (fuel : Nat) : ∀ (σ : uv_loop_t) (i : Nat), HeapInv σ →
    σ.time < UINT64_MAX → i ∉ σ.timer_heap → i ∉ (uv__run_timers fuel σ).2.1 := by
  induction fuel with
  | zero =>
    intro σ i _ _ _
    rw [run_timers_zero]
    simp
  | succ n ih =>
    intro σ i hInv htime hni
    cases hs : run_timers_step σ with
    | none =>
      rw [run_timers_succ_none n σ hs]
      simp
    | some p =>
      have hs2 : run_timers_step σ = some (p.1, p.2) := by rw [hs]
      rw [run_timers_succ_some n σ p.1 p.2 hs2]
      intro hmem
      have hmin : p.2 ∈ σ.timer_heap :=
        heap_min_mem σ p.2 (step_some_inv σ p.1 p.2 hs2).1
      rcases List.mem_cons.mp hmem with he | hmem2
      · exact hni (he ▸ hmin)
      · have hInv2 := HeapInv_step σ p.1 p.2 hInv hs2
        have ht2 : p.1.time < UINT64_MAX := by
          rw [step_time σ p.1 p.2 hs2]
          exact htime
        have hiq : i ≠ p.2 := fun he => hni (he ▸ hmin)
        have hni2 : i ∉ p.1.timer_heap :=
          step_not_mem σ p.1 p.2 i hInv htime hs2 hni hiq
        exact ih p.1 i hInv2 ht2 hni2 hmem2

theorem run_not_fired_notdue (fuel : Nat) : ∀ (σ : uv_loop_t) (i : Nat), HeapInv σ →
    σ.time < UINT64_MAX → σ.time < (σ.handle i).timeout →
    i ∉ (uv__run_timers fuel σ).2.1 := by
  induction fuel with
  | zero =>
    intro σ i _ _ _
    rw [run_timers_zero]
    simp
  | succ n ih =>
    intro σ i hInv htime hnd
    cases hs : run_timers_step σ with
    | none =>
      rw [run_timers_succ_none n σ hs]
      simp
    | some p =>
      have hs2 : run_timers_step σ = some (p.1, p.2) := by rw [hs]
      rw [run_timers_succ_some n σ p.1 p.2 hs2]
      intro hmem
      have hdue : (σ.handle p.2).timeout ≤ σ.time := (step_some_inv σ p.1 p.2 hs2).2.1
      have hiq : i ≠ p.2 := by
        intro he
        rw [he] at hnd
        omega
      rcases List.mem_cons.mp hmem with he | hmem2
      · exact hiq he
      · have hInv2 := HeapInv_step σ p.1 p.2 hInv hs2
        have ht2 : p.1.time < UINT64_MAX := by
          rw [step_time σ p.1 p.2 hs2]
          exact htime
        have hnd2 : p.1.time < (p.1.handle i).timeout := by
          rw [step_time σ p.1 p.2 hs2, step_handle_ne σ p.1 p.2 i hiq hs2]
          exact hnd
        exact ih p.1 i hInv2 ht2 hnd2 hmem2

theorem run_count_le_one (fuel : Nat) : ∀ σ : uv_loop_t, HeapInv σ →
    σ.time < UINT64_MAX → ∀ i, ((uv__run_timers fuel σ).2.1.count i) ≤ 1 := by
  induction fuel with
  | zero =>
    intro σ _ _ i
    rw [run_timers_zero]
    simp
  | succ n ih =>
    intro σ hInv htime i
    cases hs : run_timers_step σ with
    | none =>
      rw [run_timers_succ_none n σ hs]
      simp
    | some p =>
      have hs2 : run_timers_step σ = some (p.1, p.2) := by rw [hs]
      rw [run_timers_succ_some n σ p.1 p.2 hs2]
      have hInv2 := HeapInv_step σ p.1 p.2 hInv hs2
      have ht2 : p.1.time < UINT64_MAX := by
        rw [step_time σ p.1 p.2 hs2]
        exact htime
      by_cases hip : i = p.2
      · rw [hip, List.count_cons_self]
        have hzero : (uv__run_timers n p.1).2.1.count p.2 = 0 := by
          rw [List.count_eq_zero]
          obtain ⟨hchar, -⟩ := step_state σ p.1 p.2 hInv htime hs2
          rcases hchar with hc | ⟨-, hnotdue⟩
          · refine run_not_fired_out n p.1 p.2 hInv2 ht2 ?_
            rw [hc]
            exact hInv.1.not_mem_erase
          · exact run_not_fired_notdue n p.1 p.2 hInv2 ht2 hnotdue
        omega
      · rw [List.count_cons_of_ne (by exact hip)]
        exact ih p.1 hInv2 ht2 i

theorem run_terminates (fuel : Nat) : ∀ σ : uv_loop_t, HeapInv σ →
    σ.time < UINT64_MAX → dueCount σ < fuel → (uv__run_timers fuel σ).2.2 = true := by
  induction fuel with
  | zero =>
    intro σ _ _ hd
    omega
  | succ n ih =>
    intro σ hInv htime hd
    cases hs : run_timers_step σ with
    | none =>
      rw [run_timers_succ_none n σ hs]
    | some p =>
      have hs2 : run_timers_step σ = some (p.1, p.2) := by rw [hs]
      rw [run_timers_succ_some n σ p.1 p.2 hs2]
      have hInv2 := HeapInv_step σ p.1 p.2 hInv hs2
      have ht2 : p.1.time < UINT64_MAX := by
        rw [step_time σ p.1 p.2 hs2]
        exact htime
      obtain ⟨-, hdec⟩ := step_state σ p.1 p.2 hInv htime hs2
      exact ih p.1 hInv2 ht2 (by omega)

theorem run_break_cond (fuel : Nat) : ∀ σ : uv_loop_t,
    (uv__run_timers fuel σ).2.2 = true →
    run_timers_step (uv__run_timers fuel σ).1 = none := by
  induction fuel with
  | zero =>
    intro σ hfin
    rw [run_timers_zero] at hfin
    exact absurd hfin (by simp)
  | succ n ih =>
    intro σ hfin
    cases hs : run_timers_step σ with
    | none =>
      rw [run_timers_succ_none n σ hs] at hfin ⊢
      exact hs
    | some p =>
      have hs2 : run_timers_step σ = some (p.1, p.2) := by rw [hs]
      rw [run_timers_succ_some n σ p.1 p.2 hs2] at hfin ⊢
      exact ih p.1 hfin

theorem start_ret (σ : uv_loop_t) (i : Nat) (cb : Option Nat) (t r : Nat)
    (hcl : (σ.handle i).closing = false) (hcb : cb ≠ none) :
    (uv_timer_start σ i cb t r).2 = 0 := by
  obtain ⟨c, rfl⟩ := Option.ne_none_iff_exists'.mp hcb
  unfold uv_timer_start
  rw [hcl, some_beq_none]
  simp

/-! ### The claims -/

/-- C9: `uv_timer_stop` on an inactive handle is a no-op returning 0, a
second consecutive stop is exactly a no-op, and stop always returns 0
(idempotent, never errors). -/
theorem C9_stop_idempotent (σ : uv_loop_t) (i : Nat) :
    ((σ.handle i).active = false → uv_timer_stop σ i = (σ, 0)) ∧
    uv_timer_stop (uv_timer_stop σ i).1 i = ((uv_timer_stop σ i).1, 0) ∧
    (uv_timer_stop σ i).2 = 0 := by
  refine ⟨stop_inactive σ i, ?_, stop_ret σ i⟩
  have hin : ((uv_timer_stop σ i).1.handle i).active = false := by
    rw [stop_handle_self σ i]
  exact stop_inactive _ i hin

/-- C9 witness: stopping the already-stopped handle of a concrete state
is a no-op. -/
theorem C9_witness :
    (drift_state0.handle 1).active = false ∧ uv_timer_stop drift_state0 1 = (drift_state0, 0) :=
  ⟨by decide, (C9_stop_idempotent drift_state0 1).1 (by decide)⟩

/-- C10: `uv_timer_set_repeat` writes only the `repeat` field — timeout,
start_id, callback, active, closing, the heap, the clock and the counter
are untouched, other handles are untouched — and `uv_timer_get_repeat`
reads the written value back. -/
theorem C10_set_repeat_frame (σ : uv_loop_t) (i v : Nat)
    (hi : i < σ.handles.length) :
    uv_timer_get_repeat (uv_timer_set_repeat σ i v) i = v ∧
    ((uv_timer_set_repeat σ i v).handle i).timeout = (σ.handle i).timeout ∧
    ((uv_timer_set_repeat σ i v).handle i).start_id = (σ.handle i).start_id ∧
    ((uv_timer_set_repeat σ i v).handle i).timer_cb = (σ.handle i).timer_cb ∧
    ((uv_timer_set_repeat σ i v).handle i).active = (σ.handle i).active ∧
    ((uv_timer_set_repeat σ i v).handle i).closing = (σ.handle i).closing ∧
    (uv_timer_set_repeat σ i v).timer_heap = σ.timer_heap ∧
    (uv_timer_set_repeat σ i v).time = σ.time ∧
    (uv_timer_set_repeat σ i v).timer_counter = σ.timer_counter ∧
    (∀ j, j ≠ i → (uv_timer_set_repeat σ i v).handle j = σ.handle j) := by
  have hset : (uv_timer_set_repeat σ i v).handle i = { σ.handle i with repeat_ := v } :=
    handle_setHandle_self σ i _ hi
  refine ⟨?_, ?_, ?_, ?_, ?_, ?_, rfl, rfl, rfl, ?_⟩
  · show ((uv_timer_set_repeat σ i v).handle i).repeat_ = v
    rw [hset]
  · rw [hset]
  · rw [hset]
  · rw [hset]
  · rw [hset]
  · rw [hset]
  · intro j hj
    exact handle_setHandle_ne σ i j _ hj

/-- C10 witness: a concrete set_repeat leaves everything but the repeat
field unchanged. -/
theorem C10_witness :
    0 < drift_state0.handles.length ∧
    uv_timer_get_repeat (uv_timer_set_repeat drift_state0 0 99) 0 = 99 ∧
    ((uv_timer_set_repeat drift_state0 0 99).handle 0).timeout =
      (drift_state0.handle 0).timeout :=
  ⟨by decide, (C10_set_repeat_frame drift_state0 0 99 (by decide)).1,
    (C10_set_repeat_frame drift_state0 0 99 (by decide)).2.1⟩

/-- C7: `uv_timer_start` returns `UV_EINVAL` iff the callback is `NULL`
or the handle is closing, `uv_timer_again` returns `UV_EINVAL` iff no
callback was ever assigned, and in every failure case the whole loop
state (handles, heap, counter, clock) is returned unchanged. -/
theorem C7_einval_no_partial_mutation (σ : uv_loop_t) (i : Nat) (cb : Option Nat)
    (t r : Nat) :
    ((uv_timer_start σ i cb t r).2 = UV_EINVAL ↔
      (cb = none ∨ (σ.handle i).closing = true)) ∧
    ((cb = none ∨ (σ.handle i).closing = true) →
      uv_timer_start σ i cb t r = (σ, UV_EINVAL)) ∧
    ((uv_timer_again σ i).2 = UV_EINVAL ↔ (σ.handle i).timer_cb = none) ∧
    ((σ.handle i).timer_cb = none → uv_timer_again σ i = (σ, UV_EINVAL)) := by
  have hstart_fail : (cb = none ∨ (σ.handle i).closing = true) →
      uv_timer_start σ i cb t r = (σ, UV_EINVAL) := by
    intro h
    exact start_fail σ i cb t r (Or.symm h)
  refine ⟨?_, hstart_fail, ?_, again_noop_cb σ i⟩
  · constructor
    · intro h
      by_contra hno
      push_neg at hno
      have hclf : (σ.handle i).closing = false := Bool.not_eq_true _ ▸ hno.2
      rw [start_ret σ i cb t r hclf hno.1] at h
      exact absurd h (by decide)
    · intro h
      rw [hstart_fail h]
  · constructor
    · intro h
      by_cases hcb : (σ.handle i).timer_cb = none
      · exact hcb
      · exfalso
        by_cases hr : (σ.handle i).repeat_ = 0
        · rw [again_noop_repeat σ i hcb hr] at h
          exact absurd (show (0 : Int) = UV_EINVAL from h) (by decide)
        · rw [again_rearm σ i hcb hr] at h
          exact absurd (show (0 : Int) = UV_EINVAL from h) (by decide)
    · intro h
      rw [again_noop_cb σ i h]

/-- C7 witness: starting a concrete handle with a NULL callback fails
with `UV_EINVAL` and leaves the state untouched. -/
theorem C7_witness :
    ((none : Option Nat) = none ∨ (drift_state0.handle 0).closing = true) ∧
    uv_timer_start drift_state0 0 none 3 4 = (drift_state0, UV_EINVAL) :=
  ⟨Or.inl rfl,
    (C7_einval_no_partial_mutation drift_state0 0 none 3 4).2.1 (Or.inl rfl)⟩

/-- C5: the absolute deadline is `loop->time + delay`, saturated to
`2^64 - 1` on 64-bit overflow instead of wrapping, so the recorded
deadline is never below the cached time; in particular
`delay = UINT64_MAX` with positive time yields `UINT64_MAX`. -/
theorem C5_start_saturates (σ : uv_loop_t) (i : Nat) (cb : Option Nat)
    (delay r : Nat) (htime : σ.time < U64) (hdelay : delay < U64)
    (hcb : cb ≠ none) (hcl : (σ.handle i).closing = false)
    (hi : i < σ.handles.length) :
    ((uv_timer_start σ i cb delay r).1.handle i).timeout =
      (if σ.time + delay < U64 then σ.time + delay else UINT64_MAX) ∧
    σ.time ≤ ((uv_timer_start σ i cb delay r).1.handle i).timeout ∧
    (delay = UINT64_MAX → 0 < σ.time →
      ((uv_timer_start σ i cb delay r).1.handle i).timeout = UINT64_MAX) := by
  obtain ⟨hH, -, -, -, -, -, -⟩ := start_success σ i cb delay r hcb hcl hi
  have hU : U64 = 18446744073709551616 := by norm_num [U64]
  have hM : UINT64_MAX = 18446744073709551615 := by norm_num [UINT64_MAX]
  have htime2 : σ.time < 18446744073709551616 := by
    rw [← hU]
    exact htime
  have hdelay2 : delay < 18446744073709551616 := by
    rw [← hU]
    exact hdelay
  have hval : ((uv_timer_start σ i cb delay r).1.handle i).timeout =
      (if (σ.time + delay) % U64 < delay then UINT64_MAX else (σ.time + delay) % U64) := by
    rw [hH]
  have heq : (if (σ.time + delay) % U64 < delay then UINT64_MAX else (σ.time + delay) % U64) =
      (if σ.time + delay < U64 then σ.time + delay else UINT64_MAX) := by
    rw [hU, hM]
    split <;> split <;> omega
  refine ⟨hval.trans heq, ?_, ?_⟩
  · rw [hval.trans heq, hU, hM]
    split <;> omega
  · intro hd ht0
    rw [hval.trans heq, hd, hU, hM]
    split <;> omega

/-- C5 witness: starting with the maximal delay at time 1 saturates the
deadline to `UINT64_MAX`. -/
theorem C5_witness :
    (sat_state.handle 0).closing = false ∧
    ((uv_timer_start sat_state 0 (some 7) UINT64_MAX 0).1.handle 0).timeout = UINT64_MAX :=
  ⟨by decide,
    (C5_start_saturates sat_state 0 (some 7) UINT64_MAX 0
      (by norm_num [sat_state, U64]) (by norm_num [U64, UINT64_MAX]) (by decide) (by decide)
      (by decide)).2.2 rfl (by decide)⟩

/-- C2: `uv__next_timeout` returns the block-indefinitely sentinel `-1`
iff the heap is empty, returns 0 when the minimum is already due, and
otherwise returns `timeout - loop->time` clamped to `INT_MAX`; the
result never exceeds `INT_MAX`. -/
theorem C2_next_timeout_spec (σ : uv_loop_t) :
    (uv__next_timeout σ = -1 ↔ σ.timer_heap = []) ∧
    (∀ i, heap_min σ = some i → (σ.handle i).timeout ≤ σ.time →
      uv__next_timeout σ = 0) ∧
    (∀ i, heap_min σ = some i → σ.time < (σ.handle i).timeout →
      uv__next_timeout σ = ((min ((σ.handle i).timeout - σ.time) INT_MAX : Nat) : Int)) ∧
    uv__next_timeout σ ≤ (INT_MAX : Int) := by
  cases hm : heap_min σ with
  | none =>
    have hempty : σ.timer_heap = [] := (heap_min_eq_none_iff σ).mp hm
    have hval : uv__next_timeout σ = -1 := by
      unfold uv__next_timeout
      rw [hm]
    refine ⟨by rw [hval]; simp [hempty], ?_, ?_, ?_⟩
    · intro i hi
      exact absurd hi (by simp)
    · intro i hi
      exact absurd hi (by simp)
    · rw [hval]
      norm_num [INT_MAX]
  | some m =>
    have hne : ¬ σ.timer_heap = [] := by
      intro he
      have h0 := (heap_min_eq_none_iff σ).mpr he
      rw [h0] at hm
      exact absurd hm (by simp)
    by_cases hdue : (σ.handle m).timeout ≤ σ.time
    · have hval : uv__next_timeout σ = 0 := by
        unfold uv__next_timeout
        simp only [hm]
        rw [if_pos hdue]
      refine ⟨?_, fun i _ _ => hval, ?_, ?_⟩
      · rw [hval]
        exact ⟨fun h => absurd h (by decide), fun h => absurd h hne⟩
      · intro i hi hlt
        injection hi with hi
        subst hi
        omega
      · rw [hval]
        norm_num [INT_MAX]
    · have hval : uv__next_timeout σ =
          (if ((σ.handle m).timeout - σ.time) > INT_MAX then (INT_MAX : Int)
            else (((σ.handle m).timeout - σ.time : Nat) : Int)) := by
        unfold uv__next_timeout
        simp only [hm]
        rw [if_neg hdue]
      refine ⟨?_, ?_, ?_, ?_⟩
      · constructor
        · intro h
          rw [hval] at h
          split at h
          · exact absurd h (by decide)
          · omega
        · intro h
          exact absurd h hne
      · intro i hi hdi
        injection hi with hi
        subst hi
        omega
      · intro i hi hlt
        injection hi with hi
        subst hi
        rw [hval]
        split
        · rename_i hgt
          have hmin : min ((σ.handle m).timeout - σ.time) INT_MAX = INT_MAX := by omega
          rw [hmin]
        · rename_i hle
          have hmin : min ((σ.handle m).timeout - σ.time) INT_MAX =
              (σ.handle m).timeout - σ.time := by omega
          rw [hmin]
      · rw [hval]
        split
        · exact le_refl _
        · rename_i hle
          omega

/-- C2 witness: on a concrete state whose minimum is already due, the
poll budget is 0. -/
theorem C2_witness :
    heap_min drift_state = some 0 ∧
    (drift_state.handle 0).timeout ≤ drift_state.time ∧
    uv__next_timeout drift_state = 0 :=
  ⟨by decide, by decide,
    (C2_next_timeout_spec drift_state).2.1 0 (by decide) (by decide)⟩

/-- C1: one `uv__run_timers` call never advances the cached clock; when
it finishes, the heap is empty or the minimum is strictly later than the
cached time; it returns immediately exactly under that condition; and a
due minimum is processed by stopping the handle, re-arming it via
`uv_timer_again`, and only then firing the callback. -/
theorem C1_run_timers_protocol (σ : uv_loop_t) (fuel : Nat) :
    (uv__run_timers fuel σ).1.time = σ.time ∧
    ((uv__run_timers fuel σ).2.2 = true →
      (heap_min (uv__run_timers fuel σ).1 = none ∨
        ∃ i, heap_min (uv__run_timers fuel σ).1 = some i ∧
          (uv__run_timers fuel σ).1.time <
            ((uv__run_timers fuel σ).1.handle i).timeout)) ∧
    ((heap_min σ = none ∨
        (∃ i, heap_min σ = some i ∧ σ.time < (σ.handle i).timeout)) →
      uv__run_timers (fuel + 1) σ = (σ, [], true)) ∧
    (∀ i, heap_min σ = some i → (σ.handle i).timeout ≤ σ.time →
      run_timers_step σ = some ((uv_timer_again (uv_timer_stop σ i).1 i).1, i)) := by
  refine ⟨run_timers_time fuel σ, ?_, ?_, ?_⟩
  · intro hfin
    exact (step_none_iff _).mp (run_break_cond fuel σ hfin)
  · intro hbreak
    exact run_timers_succ_none fuel σ ((step_none_iff σ).mpr hbreak)
  · intro i hm hdue
    unfold run_timers_step
    simp only [hm]
    rw [if_neg (by omega : ¬ (σ.handle i).timeout > σ.time)]

/-- C1 witness: the concrete drift state finishes within its fuel and
ends at the break condition. -/
theorem C1_witness :
    (uv__run_timers 5 drift_state).2.2 = true ∧
    (heap_min (uv__run_timers 5 drift_state).1 = none ∨
      ∃ i, heap_min (uv__run_timers 5 drift_state).1 = some i ∧
        (uv__run_timers 5 drift_state).1.time <
          ((uv__run_timers 5 drift_state).1.handle i).timeout) :=
  ⟨by decide, (C1_run_timers_protocol drift_state 5).2.1 (by decide)⟩

/-- C4: every public operation preserves the invariant that a handle is
linked into the timer heap iff its active flag is set (init requires the
handle not to be a current heap member, its construction context). -/
theorem C4_active_iff_heap_membership (σ : uv_loop_t) (i : Nat) (cb : Option Nat)
    (t r fuel : Nat) (hInv : HeapInv σ) (hi : i < σ.handles.length) :
    (i ∉ σ.timer_heap → HeapInv (uv_timer_init σ i).1) ∧
    HeapInv (uv_timer_start σ i cb t r).1 ∧
    HeapInv (uv_timer_stop σ i).1 ∧
    HeapInv (uv_timer_again σ i).1 ∧
    HeapInv (uv__timer_close σ i) ∧
    HeapInv (uv__run_timers fuel σ).1 :=
  ⟨fun hni => HeapInv_init σ i hInv hi hni,
   HeapInv_start σ i cb t r hInv hi,
   HeapInv_stop σ i hInv,
   HeapInv_again σ i hInv,
   HeapInv_stop σ i hInv,
   HeapInv_run fuel σ hInv⟩

/-- C4 witness: a concrete state satisfying the invariant still satisfies
it after stopping its handle. -/
theorem C4_witness :
    HeapInv drift_state ∧ 0 < drift_state.handles.length ∧
    HeapInv (uv_timer_stop drift_state 0).1 :=
  ⟨by decide, by decide,
    (C4_active_iff_heap_membership drift_state 0 (some 7) 1 1 1
      (by decide) (by decide)).2.2.1⟩

/-- C6: `uv_timer_again` with a known callback is a successful no-op when
`repeat = 0`; with `repeat ≠ 0` it stops and restarts with
`delay = repeat, repeat = repeat` measured from the cached time, so the
new deadline is `loop->time + repeat`; and in the spec's drift scenario
(started delay 10/repeat 10, clock jumped to 35) one call fires the
handle exactly once and re-arms it for 45, not 40. -/
theorem C6_again_rearms_from_now (σ : uv_loop_t) (i : Nat)
    (hcb : (σ.handle i).timer_cb ≠ none) :
    ((σ.handle i).repeat_ = 0 → uv_timer_again σ i = (σ, 0)) ∧
    ((σ.handle i).repeat_ ≠ 0 →
      uv_timer_again σ i =
        ((uv_timer_start (uv_timer_stop σ i).1 i (σ.handle i).timer_cb
            (σ.handle i).repeat_ (σ.handle i).repeat_).1, 0)) ∧
    ((σ.handle i).repeat_ ≠ 0 → (σ.handle i).closing = false →
      i < σ.handles.length → σ.time + (σ.handle i).repeat_ < U64 →
      ((uv_timer_again σ i).1.handle i).timeout = σ.time + (σ.handle i).repeat_ ∧
      ((uv_timer_again σ i).1.handle i).repeat_ = (σ.handle i).repeat_) ∧
    ((uv__run_timers 5 drift_state).2.1 = [0] ∧
      (uv__run_timers 5 drift_state).2.2 = true ∧
      ((uv__run_timers 5 drift_state).1.handle 0).timeout = 45 ∧
      drift_state.time + (drift_state.handle 0).repeat_ = 45 ∧
      drift_state.time = 35) := by
  refine ⟨fun hr => again_noop_repeat σ i hcb hr,
    fun hr => again_rearm σ i hcb hr, ?_, by decide⟩
  intro hr hcl hi hnov
  rw [again_rearm σ i hcb hr]
  have hscl : ((uv_timer_stop σ i).1.handle i).closing = false := by
    rw [stop_handle_self σ i]
    exact hcl
  have hia : i < (uv_timer_stop σ i).1.handles.length := by
    rw [stop_length]
    exact hi
  obtain ⟨hH, -, -, -, -, -, -⟩ := start_success (uv_timer_stop σ i).1 i
    (σ.handle i).timer_cb (σ.handle i).repeat_ (σ.handle i).repeat_ hcb hscl hia
  constructor
  · show ((uv_timer_start (uv_timer_stop σ i).1 i (σ.handle i).timer_cb
        (σ.handle i).repeat_ (σ.handle i).repeat_).1.handle i).timeout =
      σ.time + (σ.handle i).repeat_
    rw [hH]
    show (if ((uv_timer_stop σ i).1.time + (σ.handle i).repeat_) % U64 <
        (σ.handle i).repeat_ then UINT64_MAX
      else ((uv_timer_stop σ i).1.time + (σ.handle i).repeat_) % U64) =
      σ.time + (σ.handle i).repeat_
    rw [stop_time, Nat.mod_eq_of_lt hnov, if_neg (by omega)]
  · show ((uv_timer_start (uv_timer_stop σ i).1 i (σ.handle i).timer_cb
        (σ.handle i).repeat_ (σ.handle i).repeat_).1.handle i).repeat_ =
      (σ.handle i).repeat_
    rw [hH]

/-- C6 witness: the drift-scenario handle has a callback, and one run
fires it exactly once. -/
theorem C6_witness :
    (drift_state.handle 0).timer_cb ≠ none ∧
    (uv__run_timers 5 drift_state).2.1 = [0] :=
  ⟨by decide, ((C6_again_rearms_from_now drift_state 0 (by decide)).2.2.2).1⟩

/-- C3: on a heap whose members carry pairwise distinct start ids the
comparator is a strict total order (exactly one direction holds between
distinct members), repeatedly extracting and removing the minimum yields
`(timeout, start_id)` pairs that are non-decreasing and strictly
increasing in `start_id` on timeout ties, and `uv_timer_start` allocates
`start_id` from the loop counter, which it increments. -/
theorem C3_extraction_sorted (σ : uv_loop_t)
    (hdist : List.Pairwise
      (fun i j => (σ.handle i).start_id ≠ (σ.handle j).start_id) σ.timer_heap) :
    (∀ i ∈ σ.timer_heap, ∀ j ∈ σ.timer_heap, i ≠ j →
      (timer_less_than (σ.handle i) (σ.handle j) = true ∨
        timer_less_than (σ.handle j) (σ.handle i) = true) ∧
      ¬(timer_less_than (σ.handle i) (σ.handle j) = true ∧
        timer_less_than (σ.handle j) (σ.handle i) = true)) ∧
    (∀ fuel, List.Pairwise lexLt ((extract_mins fuel σ).map (keyOf σ))) ∧
    (∀ i cb t r, i < σ.handles.length → (σ.handle i).closing = false → cb ≠ none →
      ((uv_timer_start σ i cb t r).1.handle i).start_id = σ.timer_counter ∧
      (uv_timer_start σ i cb t r).1.timer_counter = (σ.timer_counter + 1) % U64) := by
  refine ⟨?_, ?_, ?_⟩
  · intro i hi j hj hij
    have hsid : (σ.handle i).start_id ≠ (σ.handle j).start_id :=
      hdist.forall (fun a b h => Ne.symm h) hi hj hij
    have hkne : ((σ.handle i).timeout, (σ.handle i).start_id) ≠
        ((σ.handle j).timeout, (σ.handle j).start_id) :=
      fun he => hsid (congrArg Prod.snd he)
    refine ⟨timer_less_than_total _ _ hkne, ?_⟩
    rintro ⟨h1, h2⟩
    rw [timer_less_than_asymm _ _ h1] at h2
    exact absurd h2 (by simp)
  · intro fuel
    rw [List.pairwise_map]
    exact extract_mins_sorted fuel σ hdist
  · intro i cb t r hi hcl hcb
    obtain ⟨hH, -, hcnt, -, -, -, -⟩ := start_success σ i cb t r hcb hcl hi
    exact ⟨by rw [hH], hcnt⟩

/-- C3 witness: extracting from a concrete two-handle heap with tied
timeouts yields a sequence strictly increasing in start id. -/
theorem C3_witness :
    List.Pairwise
      (fun i j => (two_state.handle i).start_id ≠ (two_state.handle j).start_id)
      two_state.timer_heap ∧
    List.Pairwise lexLt ((extract_mins 2 two_state).map (keyOf two_state)) :=
  ⟨by decide, (C3_extraction_sorted two_state (by decide)).2.1 2⟩

/-- C8 (amended): provided the cached loop time is strictly below
`UINT64_MAX` and the heap invariant holds, a call with fuel exceeding the
store size reaches the break condition and each handle fires at most
once (callbacks are modelled as no-ops, matching the claim's proviso that
they do not start, stop, or re-arm timers). -/
theorem C8_run_timers_bounded (σ : uv_loop_t) (fuel : Nat) (hInv : HeapInv σ)
    (htime : σ.time < UINT64_MAX) (hfuel : σ.timer_heap.length < fuel) :
    (uv__run_timers fuel σ).2.2 = true ∧
    ∀ i, ((uv__run_timers fuel σ).2.1.count i) ≤ 1 := by
  refine ⟨?_, run_count_le_one fuel σ hInv htime⟩
  refine run_terminates fuel σ hInv htime ?_
  have hle := List.length_filter_le
    (fun j => decide ((σ.handle j).timeout ≤ σ.time)) σ.timer_heap
  unfold dueCount
  omega

/-- C8 counterexample: with the cached time at `UINT64_MAX` and one due
repeating handle (store size 1), the re-armed deadline saturates back to
the cached time, so the single handle fires on every iteration and the
loop never reaches its break condition — firing three times within fuel
3 rather than at most once. -/
theorem C8_counterexample :
    HeapInv overdue_state ∧
    overdue_state.timer_heap.length = 1 ∧
    (uv__run_timers 3 overdue_state).2.1.count 0 = 3 ∧
    (uv__run_timers 3 overdue_state).2.2 = false := by
  refine ⟨by decide, by decide, by decide, by decide⟩

/-- C8 witness: the drift scenario satisfies the amended hypotheses and
its run terminates. -/
theorem C8_witness :
    HeapInv drift_state ∧ drift_state.time < UINT64_MAX ∧
    drift_state.timer_heap.length < 5 ∧
    (uv__run_timers 5 drift_state).2.2 = true :=
  ⟨by decide, by decide, by decide,
    (C8_run_timers_bounded drift_state 5 (by decide) (by decide) (by decide)).1⟩

end UvTimer
